import Mathlib

/-!
Verification of the nest-file-storage storage core: the key/path codec and
the three storage adapters (local filesystem, S3 object storage, Azure blob
storage) together with the storage factory, shallowly embedded from the
TypeScript sources.  JavaScript strings are modelled as lists of characters,
buffers as lists of bytes, the filesystem as an association list from full
paths to contents, and remote backends by the traces of commands the
adapters issue.  The host is modelled as a Unix host (path separator
character is the forward slash), matching the repository's test and
deployment environment.
-/

namespace FileStorage

/-- JavaScript strings, modelled as lists of characters. -/
abbrev JStr := List Char

/-- Byte buffers (Node `Buffer`), modelled as lists of byte values. -/
abbrev Bytes := List Nat

/-- JavaScript `String.prototype.split` with a one-character separator:
`"".split(c)` is `[""]`, and every separator occurrence starts a new
(possibly empty) segment. -/
def splitChar (c : Char) : JStr → List JStr
  | [] => [[]]
  | x :: xs =>
    if x = c then [] :: splitChar c xs
    else
      match splitChar c xs with
      | [] => [[x]]
      | h :: t => (x :: h) :: t

/-- JavaScript `Array.prototype.join` with a one-character separator. -/
def joinChar (c : Char) : List JStr → JStr
  | [] => []
  | [s] => s
  | s :: rest => s ++ c :: joinChar c rest

/-- JavaScript `s.startsWith(pat)`. -/
def jsStartsWith : JStr → JStr → Bool
  | _, [] => true
  | [], _ :: _ => false
  | c :: cs, p :: ps => decide (c = p) && jsStartsWith cs ps

/-- JavaScript `s.replace(/c$/, '')`: drop one trailing occurrence of `c`. -/
def stripOneTrailing (c : Char) (l : JStr) : JStr :=
  if l.getLast? = some c then l.dropLast else l

/-- JavaScript `s.replace(/^c/, '')`: drop one leading occurrence of `c`. -/
def stripOneLeading (c : Char) (l : JStr) : JStr :=
  match l with
  | [] => []
  | x :: xs => if x = c then xs else l

/-- One step of Node's posix `normalizeString` segment stack (`acc` holds the
already-processed segments, most recent first).  Empty and `.` segments are
dropped; `..` pops the previous segment, except that above the top of a
relative path (`aar` = allow above root) it is kept and above the root of an
absolute path it is discarded. -/
def normStep (aar : Bool) (acc : List JStr) (s : JStr) : List JStr :=
  if s = [] ∨ s = ['.'] then acc
  else if s = ['.', '.'] then
    match acc with
    | [] => if aar then [s] else []
    | t :: acc' => if t = ['.', '.'] then (if aar then s :: t :: acc' else t :: acc') else acc'
  else s :: acc

/-- Node `path.posix.normalize`. -/
def posixNormalize (p : JStr) : JStr :=
  if p = [] then ['.']
  else
    let isAbs := p.head? = some '/'
    let trailing := p.getLast? = some '/'
    let core := joinChar '/' (List.reverse (List.foldl (normStep (!decide isAbs)) [] (splitChar '/' p)))
    if core = [] then
      (if isAbs then ['/'] else if trailing then ['.', '/'] else ['.'])
    else
      let core2 := if trailing then core ++ ['/'] else core
      if isAbs then '/' :: core2 else core2

/-- Node `path.posix.join` with two arguments: empty arguments are skipped,
the rest are joined with `/` and the result is normalized. -/
def posixJoin (a b : JStr) : JStr :=
  let joined := joinChar '/' (List.filter (fun s => s ≠ []) [a, b])
  if joined = [] then ['.'] else posixNormalize joined

/-- Node `path.posix.basename`: strip trailing separators, then take the last
`/`-separated component. -/
def basename (p : JStr) : JStr :=
  let q := (List.dropWhile (fun ch => ch = '/') p.reverse).reverse
  match (splitChar '/' q).getLast? with
  | some s => s
  | none => []

/-- LocalStorage.pathToUrl: strip the configured root prefix when present,
convert backslashes to forward slashes, and strip all leading slashes. -/
def pathToUrl (rootPath filePath : JStr) : JStr :=
  if filePath = [] then []
  else
    let relativePath :=
      if jsStartsWith filePath rootPath then filePath.drop rootPath.length else filePath
    List.dropWhile (fun ch => ch = '/')
      (relativePath.map (fun ch => if ch = '\\' then '/' else ch))

/-- LocalStorage.urlToPath: split the key on `/`, discard empty segments and
rejoin with the host separator (`/` on the modelled Unix host). -/
def urlToPath (urlKey : JStr) : JStr :=
  if urlKey = [] then []
  else joinChar '/' (List.filter (fun part => 0 < part.length) (splitChar '/' urlKey))

/-- LocalStorage.getFullPath: `join(rootPath, urlToPath(key))`. -/
def getFullPath (rootPath urlKey : JStr) : JStr :=
  posixJoin rootPath (urlToPath urlKey)

/-- LocalStorage.getUrl: keys starting with `http` pass through unchanged, an
empty key maps to the empty string, and otherwise the base URL (one trailing
slash stripped) is concatenated with the key (one leading slash stripped). -/
def localGetUrl (baseUrl urlKey : JStr) : JStr :=
  if urlKey ≠ [] ∧ jsStartsWith urlKey ('h' :: 't' :: 't' :: 'p' :: []) = true then urlKey
  else if urlKey = [] then []
  else stripOneTrailing '/' baseUrl ++ '/' :: stripOneLeading '/' urlKey

/-- LocalStorage.path: empty key maps to the empty string, otherwise the full
rooted path of the key. -/
def localPath (rootPath urlKey : JStr) : JStr :=
  if urlKey = [] then [] else getFullPath rootPath urlKey

/-- The claim's notion of a canonical key: forward-slash separated with no
empty segments (which also rules out a leading slash). -/
abbrev isCanonicalKey (k : JStr) : Prop :=
  ∀ s ∈ splitChar '/' k, s ≠ []

/-- The UploadedFile record returned by every write or copy operation (the
fields the storage core computes). -/
structure UploadedFile where
  originalName : JStr
  size : Nat
  fileName : JStr
  key : JStr
  url : JStr
  fullPath : JStr
deriving DecidableEq

/-- The optional third argument of putFile.  In the source it is spread
(`...options`) into the result object after the computed fields, so any field
present here overrides the computed one. -/
structure PutOptions where
  originalName : Option JStr := none
  size : Option Nat := none
  fileName : Option JStr := none
  key : Option JStr := none
  url : Option JStr := none
  fullPath : Option JStr := none
deriving DecidableEq

/-- Apply the JavaScript object spread `{ ...computed, ...options }`: every
field present in `options` overrides the computed one. -/
def spreadOptions (computed : UploadedFile) (options : PutOptions) : UploadedFile :=
  { originalName := options.originalName.getD computed.originalName
    size := options.size.getD computed.size
    fileName := options.fileName.getD computed.fileName
    key := options.key.getD computed.key
    url := options.url.getD computed.url
    fullPath := options.fullPath.getD computed.fullPath }

/-! ### Local filesystem adapter

The filesystem is modelled as an association list from full paths to file
contents; `fs.writeFile` replaces or inserts an entry, `fs.promises.unlink`
removes it or rejects with `ENOENT`, `fs.promises.readFile` rejects with
`ENOENT` when the path has no entry.  Directory creation (`mkdirSync` with
`recursive: true`) never fails and leaves the file map unchanged, so it is
not tracked. -/

/-- Node filesystem errors relevant to the storage core. -/
inductive FsError
  | ENOENT
deriving DecidableEq

/-- The filesystem: full path to file contents. -/
abbrev FS := List (JStr × Bytes)

/-- Look up the contents stored at a path. -/
def fsLookup (p : JStr) : FS → Option Bytes
  | [] => none
  | (q, v) :: rest => if q = p then some v else fsLookup p rest

/-- Remove every entry at a path. -/
def fsErase (p : JStr) (fs : FS) : FS :=
  List.filter (fun e => e.1 ≠ p) fs

/-- Overwrite (or create) the file at a path. -/
def fsWrite (p : JStr) (v : Bytes) (fs : FS) : FS :=
  (p, v) :: fsErase p fs

/-- LocalStorage.getFile: translate the key to a full path and delegate to
`fs.promises.readFile`; a missing path rejects with `ENOENT`. -/
def localGetFile (rootPath : JStr) (fs : FS) (urlKey : JStr) : Except FsError Bytes :=
  match fsLookup (getFullPath rootPath urlKey) fs with
  | some b => .ok b
  | none => .error .ENOENT

/-- LocalStorage.deleteFile: translate the key to a full path and delegate to
`fs.promises.unlink`; a missing path rejects with `ENOENT`. -/
def localDeleteFile (rootPath : JStr) (fs : FS) (urlKey : JStr) : Except FsError FS :=
  let fullPath := getFullPath rootPath urlKey
  match fsLookup fullPath fs with
  | some _ => .ok (fsErase fullPath fs)
  | none => .error .ENOENT

/-- The leaf name LocalStorage.putFile derives from the key:
`urlKey.split('/').pop() || urlKey` (the whole key when the last segment is
the empty string). -/
def localLeafName (urlKey : JStr) : JStr :=
  match (splitChar '/' urlKey).getLast? with
  | some s => if s = [] then urlKey else s
  | none => urlKey

/-- LocalStorage.putFile: translate the key to a full path, create the parent
directory, write the bytes, stat the written file for its size, and build the
UploadedFile record with the caller-supplied options spread in last. -/
def localPutFile (rootPath baseUrl : JStr) (fs : FS) (fileContent : Bytes)
    (urlKey : JStr) (options : PutOptions) : FS × UploadedFile :=
  let filePath := getFullPath rootPath urlKey
  let fs' := fsWrite filePath fileContent fs
  let statSize := ((fsLookup filePath fs').getD []).length
  let fileName := localLeafName urlKey
  let computed : UploadedFile :=
    { originalName := fileName
      size := statSize
      fileName := fileName
      key := urlKey
      url := localGetUrl baseUrl urlKey
      fullPath := filePath }
  (fs', spreadOptions computed options)

/-- LocalStorage._handleFile up to the multer stream plumbing: resolve the
destination directory and file name overrides (each may reject), join them,
convert to a key via pathToUrl, and only then write through putFile.  An
override rejection is passed to the callback unchanged with the filesystem
untouched.  The optional post-write transform hook is not modelled. -/
def localHandleFile (rootPath baseUrl : JStr) (fs : FS)
    (distRes nameRes : Except String JStr) (buffer : Bytes) :
    FS × Except String UploadedFile :=
  match distRes with
  | .error e => (fs, .error e)
  | .ok dist =>
    match nameRes with
    | .error e => (fs, .error e)
    | .ok fileName =>
      let filePath := posixJoin dist fileName
      let urlKey := pathToUrl rootPath filePath
      let r := localPutFile rootPath baseUrl fs buffer urlKey {}
      (r.1, .ok r.2)

/-! ### S3 object-storage adapter

The remote backend is modelled by the trace of commands the adapter issues
and, where an operation's result feeds the returned record, by an explicit
parameter carrying the backend's response (the HEAD response's
`ContentLength`).  Validation performed before any backend call is visible as
an `Except` error produced without any command being issued. -/

/-- Commands the S3 adapter sends to the backend. -/
inductive S3Cmd
  | putObject (key : JStr) (body : Bytes)
  | headObject (key : JStr)
  | getObject (key : JStr)
  | deleteObject (key : JStr)
deriving DecidableEq

/-- S3Storage.getUrl: CloudFront URL when configured, otherwise the
virtual-hosted-style bucket URL. -/
def s3GetUrl (cloudFrontUrl : Option JStr) (bucket key : JStr) : JStr :=
  match cloudFrontUrl with
  | some cf => cf ++ '/' :: key
  | none => "https://".toList ++ bucket ++ ".s3.amazonaws.com/".toList ++ key

/-- S3Storage.getFile: an empty key is rejected before any backend call;
otherwise the backend's outcome (body bytes or a thrown error, re-thrown
unchanged after logging) is passed through. -/
def s3GetFile (key : JStr) (backend : Except String Bytes) : Except String Bytes :=
  if key = [] then .error "Key is required to fetch the file from S3."
  else backend

/-- S3Storage.deleteFile: an empty key is rejected before any backend call;
otherwise the backend's outcome is passed through (errors are logged and
re-thrown unchanged). -/
def s3DeleteFile (key : JStr) (backend : Except String Unit) : Except String Unit :=
  if key = [] then .error "File key is required for deletion."
  else backend

/-- S3Storage.putFile: an empty key is replaced by a random token
(`randKey`), the object is written, and a HeadObject round trip supplies the
authoritative size (`headContentLength`, defaulting to 0 when absent).
Returns the issued command trace and the record. -/
def s3PutFile (bucket : JStr) (cloudFrontUrl : Option JStr) (fileContent : Bytes)
    (key randKey : JStr) (headContentLength : Option Nat) : List S3Cmd × UploadedFile :=
  let fileName := basename key
  let fileKey := if key = [] then randKey else key
  ([.putObject fileKey fileContent, .headObject fileKey],
   { originalName := fileName
     size := headContentLength.getD 0
     fileName := fileName
     key := fileKey
     url := s3GetUrl cloudFrontUrl bucket fileKey
     fullPath := fileKey })

/-- S3Storage._handleFile up to the stream plumbing: the buffered bytes are
uploaded only after both override functions resolve; an override rejection
reaches the callback unchanged with no backend command issued. -/
def s3HandleFile (bucket : JStr) (cloudFrontUrl : Option JStr)
    (distRes nameRes : Except String JStr) (buffer : Bytes)
    (randKey : JStr) (headContentLength : Option Nat) :
    List S3Cmd × Except String UploadedFile :=
  match distRes with
  | .error e => ([], .error e)
  | .ok dist =>
    match nameRes with
    | .error e => ([], .error e)
    | .ok fileName =>
      let filePath := posixJoin dist fileName
      let r := s3PutFile bucket cloudFrontUrl buffer filePath randKey headContentLength
      (r.1, .ok r.2)

/-! ### Azure blob-storage adapter -/

/-- Commands the Azure adapter sends to the backend. -/
inductive AzureCmd
  | uploadData (key : JStr) (body : Bytes)
  | download (key : JStr)
  | deleteBlob (key : JStr)
  | getProperties (key : JStr)
deriving DecidableEq

/-- AzureStorage.getUrl. -/
def azureGetUrl (account container key : JStr) : JStr :=
  "https://".toList ++ account ++ ".blob.core.windows.net/".toList ++ container ++ '/' :: key

/-- AzureStorage.putFile: uploads the buffer and builds the record directly,
with `size` taken from the caller-supplied buffer's length — no metadata
fetch is issued — and the caller-supplied options spread in last.  Returns
the issued command trace and the record. -/
def azurePutFile (account container : JStr) (buffer : Bytes) (key : JStr)
    (options : PutOptions) : List AzureCmd × UploadedFile :=
  let computed : UploadedFile :=
    { originalName := basename key
      size := buffer.length
      fileName := basename key
      key := key
      url := azureGetUrl account container key
      fullPath := key }
  ([.uploadData key buffer], spreadOptions computed options)

/-- AzureStorage.getFile: the blob client for the key is addressed directly —
there is no key validation of any kind — and the backend's download outcome
(the streamed bytes, or the stream's error) is passed through unchanged.
Returns the issued command trace alongside the outcome. -/
def azureGetFile (key : JStr) (backend : Except String Bytes) :
    List AzureCmd × Except String Bytes :=
  ([.download key], backend)

/-- AzureStorage.deleteFile: the backend delete's outcome is caught; an error
is logged and swallowed, so the call always resolves. -/
def azureDeleteFile (backend : Except String Unit) : Except String Unit :=
  match backend with
  | .ok _ => .ok ()
  | .error _ => .ok ()

/-- The backend command trace of AzureStorage.deleteFile: the blob client for
the key is addressed unconditionally (no key validation precedes the delete;
the outcome handling is azureDeleteFile). -/
def azureDeleteFileCmds (key : JStr) : List AzureCmd :=
  [.deleteBlob key]

/-- AzureStorage._handleFile up to the stream plumbing: both override
functions resolve before the upload; a rejection reaches the callback
unchanged with no backend command issued. -/
def azureHandleFile (account container : JStr)
    (distRes nameRes : Except String JStr) (buffer : Bytes) :
    List AzureCmd × Except String UploadedFile :=
  match distRes with
  | .error e => ([], .error e)
  | .ok dist =>
    match nameRes with
    | .error e => ([], .error e)
    | .ok key =>
      let filePath := posixJoin dist key
      let r := azurePutFile account container buffer filePath {}
      (r.1, .ok r.2)

/-! ### Storage factory

Adapter instances are JavaScript objects compared by reference; instance
identity is modelled by a counter (`nextId`) allocating a fresh identifier at
each construction.  The configuration is represented by its serialization
(`optionsJson` stands for `JSON.stringify(options)`), which is all the cache
key depends on.  The availability of the lazily imported backend SDKs is an
explicit flag per backend.  The cache-hit early return present in the source
is commented out there, and is accordingly absent here. -/

/-- The factory's static state: the instance cache and the next fresh
instance identifier. -/
structure FactoryState where
  cache : List (String × Nat)
  nextId : Nat
deriving DecidableEq

/-- JavaScript `Map.prototype.set`. -/
def mapSet (k : String) (v : Nat) (m : List (String × Nat)) : List (String × Nat) :=
  (k, v) :: List.filter (fun e => e.1 ≠ k) m

/-- JavaScript `Map.prototype.get`. -/
def mapGet (k : String) : List (String × Nat) → Option Nat
  | [] => none
  | (q, v) :: rest => if q = k then some v else mapGet k rest

/-- The error message thrown when the Azure SDK cannot be imported. -/
def azureMissingMsg : String :=
  "Azure Storage SDK (@azure/storage-blob) is required when using AzureStorage. Please install it: npm install @azure/storage-blob"

/-- The error message thrown when the AWS SDK cannot be imported. -/
def s3MissingMsg : String :=
  "AWS SDK (@aws-sdk/client-s3 and @aws-sdk/s3-request-presigner) is required when using S3Storage. Please install them: npm install @aws-sdk/client-s3 @aws-sdk/s3-request-presigner"

/-- StorageFactory.createStorage: switch on the selector string, construct
the adapter (wrapping the lazy SDK import of the azure and s3 branches in a
try/catch that surfaces a message naming the missing packages), store the
instance in the cache under `selector + "-" + serializedOptions`, and return
it.  The lookup that would return a cached instance is commented out in the
source, so every call reaching a constructor allocates a fresh instance. -/
def createStorage (st : FactoryState) (storageType : String) (optionsJson : String)
    (azureImportOk s3ImportOk : Bool) : Except String (FactoryState × Nat) :=
  let cacheKey := storageType ++ "-" ++ optionsJson
  let finish : Nat → FactoryState × Nat := fun inst =>
    ({ cache := mapSet cacheKey inst st.cache, nextId := st.nextId + 1 }, inst)
  if storageType = "local" then
    .ok (finish st.nextId)
  else if storageType = "azure" then
    if azureImportOk then .ok (finish st.nextId)
    else .error azureMissingMsg
  else if storageType = "s3" then
    if s3ImportOk then .ok (finish st.nextId)
    else .error s3MissingMsg
  else
    .error ("Unsupported storage type: " ++ storageType)

/-- StorageFactory.clearCache. -/
def clearCache (st : FactoryState) : FactoryState :=
  { st with cache := [] }

/-! ### Helper lemmas on the string-manipulation layer -/

/-- A segment that survives posix normalization unchanged and contains
neither the separator nor a backslash. -/
abbrev goodSeg (s : JStr) : Prop :=
  s ≠ [] ∧ '/' ∉ s ∧ '\\' ∉ s ∧ s ≠ ['.'] ∧ s ≠ ['.', '.']

theorem splitChar_ne_nil (c : Char) (l : JStr) : splitChar c l ≠ [] := by
  induction l with
  | nil => simp [splitChar]
  | cons x xs ih =>
    simp only [splitChar]
    by_cases h : x = c
    · simp [h]
    · simp only [h, if_false]
      cases hr : splitChar c xs with
      | nil => simp
      | cons a t => simp

theorem splitChar_no_sep (c : Char) (s : JStr) (h : c ∉ s) : splitChar c s = [s] := by
  induction s with
  | nil => rfl
  | cons x xs ih =>
    have hx : x ≠ c := fun hxc => h (hxc ▸ List.mem_cons_self x xs)
    have hxs : c ∉ xs := fun hmem => h (List.mem_cons_of_mem x hmem)
    simp only [splitChar, hx, if_false, ih hxs]

theorem splitChar_append_sep (c : Char) (a b : JStr) :
    splitChar c (a ++ c :: b) = splitChar c a ++ splitChar c b := by
  induction a with
  | nil => simp [splitChar]
  | cons x xs ih =>
    by_cases h : x = c
    · simp only [List.cons_append, splitChar, h, if_true, List.append_eq]
      rw [ih]
    · simp only [List.cons_append, splitChar, h, if_false, List.append_eq]
      rw [ih]
      cases hr : splitChar c xs with
      | nil => exact absurd hr (splitChar_ne_nil c xs)
      | cons s t => rfl

theorem splitChar_joinChar (c : Char) (segs : List JStr)
    (hne : segs ≠ []) (h : ∀ s ∈ segs, c ∉ s) :
    splitChar c (joinChar c segs) = segs := by
  induction segs with
  | nil => exact absurd rfl hne
  | cons s rest ih =>
    cases rest with
    | nil => exact splitChar_no_sep c s (h s (List.mem_cons_self s []))
    | cons s' rest' =>
      have hstep : joinChar c (s :: s' :: rest') = s ++ c :: joinChar c (s' :: rest') := rfl
      rw [hstep, splitChar_append_sep, splitChar_no_sep c s (h s (List.mem_cons_self _ _)),
        ih (by simp) (fun t ht => h t (List.mem_cons_of_mem s ht))]
      rfl

theorem joinChar_ne_nil (c : Char) (segs : List JStr)
    (hne : segs ≠ []) (h : ∀ s ∈ segs, s ≠ []) : joinChar c segs ≠ [] := by
  cases segs with
  | nil => exact absurd rfl hne
  | cons s rest =>
    cases rest with
    | nil => exact h s (List.mem_cons_self s [])
    | cons s' rest' =>
      have hstep : joinChar c (s :: s' :: rest') = s ++ c :: joinChar c (s' :: rest') := rfl
      rw [hstep]
      intro hcontra
      have := List.append_eq_nil.mp hcontra
      exact List.cons_ne_nil _ _ this.2

theorem joinChar_append (c : Char) (a b : List JStr) (ha : a ≠ []) (hb : b ≠ []) :
    joinChar c (a ++ b) = joinChar c a ++ c :: joinChar c b := by
  induction a with
  | nil => exact absurd rfl ha
  | cons s rest ih =>
    cases rest with
    | nil =>
      cases b with
      | nil => exact absurd rfl hb
      | cons t bt => rfl
    | cons s' rest' =>
      have h1 : joinChar c ((s :: s' :: rest') ++ b) = s ++ c :: joinChar c ((s' :: rest') ++ b) := by
        cases b <;> rfl
      have h2 : joinChar c (s :: s' :: rest') = s ++ c :: joinChar c (s' :: rest') := rfl
      rw [h1, h2, ih (by simp)]
      simp

theorem joinChar_cons_head (c x : Char) (s : JStr) (rest : List JStr) :
    joinChar c ((x :: s) :: rest) = x :: joinChar c (s :: rest) := by
  cases rest <;> rfl

theorem getLast?_joinChar_ne (c : Char) (segs : List JStr)
    (hne : segs ≠ []) (h : ∀ s ∈ segs, s ≠ [] ∧ c ∉ s) :
    (joinChar c segs).getLast? ≠ some c := by
  induction segs with
  | nil => exact absurd rfl hne
  | cons s rest ih =>
    cases rest with
    | nil =>
      obtain ⟨hs, hcs⟩ := h s (List.mem_cons_self s [])
      show (joinChar c [s]).getLast? ≠ some c
      have hjoin : joinChar c [s] = s := rfl
      rw [hjoin]
      intro hcontra
      obtain ⟨hsne, heq⟩ := List.mem_getLast?_eq_getLast (l := s) (x := c) (by rw [hcontra]; rfl)
      exact hcs (heq ▸ List.getLast_mem hsne)
    | cons s' rest' =>
      have hstep : joinChar c (s :: s' :: rest') = s ++ c :: joinChar c (s' :: rest') := rfl
      have hrest : joinChar c (s' :: rest') ≠ [] := by
        have h1 := (h s' (by simp)).1
        exact joinChar_ne_nil c (s' :: rest') (by simp) (fun t ht => (h t (List.mem_cons_of_mem s ht)).1)
      rw [hstep, List.getLast?_append_cons,
        show c :: joinChar c (s' :: rest') = [c] ++ joinChar c (s' :: rest') from rfl,
        List.getLast?_append_of_ne_nil [c] hrest]
      exact ih (by simp) (fun t ht => h t (List.mem_cons_of_mem s ht))

theorem mem_joinChar (c : Char) (segs : List JStr) (ch : Char)
    (h : ch ∈ joinChar c segs) : ch = c ∨ ∃ s ∈ segs, ch ∈ s := by
  induction segs with
  | nil => simp [joinChar] at h
  | cons s rest ih =>
    cases rest with
    | nil =>
      right
      exact ⟨s, List.mem_cons_self s [], h⟩
    | cons s' rest' =>
      have hstep : joinChar c (s :: s' :: rest') = s ++ c :: joinChar c (s' :: rest') := rfl
      rw [hstep] at h
      rcases List.mem_append.mp h with hs | htail
      · exact Or.inr ⟨s, List.mem_cons_self _ _, hs⟩
      · rcases List.mem_cons.mp htail with hc | hrest
        · exact Or.inl hc
        · rcases ih hrest with hc | ⟨t, ht, hcht⟩
          · exact Or.inl hc
          · exact Or.inr ⟨t, List.mem_cons_of_mem s ht, hcht⟩

theorem normStep_good (aar : Bool) (acc : List JStr) (s : JStr) (h : goodSeg s) :
    normStep aar acc s = s :: acc := by
  obtain ⟨h1, _, _, h4, h5⟩ := h
  simp [normStep, h1, h4, h5]

theorem foldl_normStep_good (aar : Bool) (xs : List JStr) (h : ∀ s ∈ xs, goodSeg s) :
    ∀ acc, List.foldl (normStep aar) acc xs = xs.reverse ++ acc := by
  induction xs with
  | nil => intro acc; rfl
  | cons s rest ih =>
    intro acc
    rw [List.foldl_cons, normStep_good aar acc s (h s (List.mem_cons_self _ _)),
      ih (fun t ht => h t (List.mem_cons_of_mem s ht))]
    simp

theorem jsStartsWith_append (a b : JStr) : jsStartsWith (a ++ b) a = true := by
  induction a with
  | nil => cases b <;> rfl
  | cons x xs ih => simp [jsStartsWith, ih]

theorem jsStartsWith_cons_ne (x p : Char) (cs ps : JStr) (h : x ≠ p) :
    jsStartsWith (x :: cs) (p :: ps) = false := by
  simp [jsStartsWith, h]

theorem map_no_backslash (l : JStr) (h : ∀ ch ∈ l, ch ≠ '\\') :
    l.map (fun ch => if ch = '\\' then '/' else ch) = l := by
  conv_rhs => rw [← List.map_id l]
  exact List.map_congr_left (fun ch hch => by simp [h ch hch])

/-! ### Evaluation of the codec on canonical inputs -/

theorem urlToPath_joinChar (segs : List JStr) (hne : segs ≠ [])
    (h : ∀ s ∈ segs, s ≠ [] ∧ '/' ∉ s) :
    urlToPath (joinChar '/' segs) = joinChar '/' segs := by
  have hk : joinChar '/' segs ≠ [] := joinChar_ne_nil _ _ hne (fun s hs => (h s hs).1)
  rw [urlToPath, if_neg hk, splitChar_joinChar _ _ hne (fun s hs => (h s hs).2)]
  congr 1
  refine List.filter_eq_self.mpr (fun s hs => ?_)
  simpa [List.length_pos] using (h s hs).1

theorem posixJoin_ne_nil_args (a b : JStr) (ha : a ≠ []) (hb : b ≠ []) :
    posixJoin a b = posixNormalize (a ++ '/' :: b) := by
  simp only [posixJoin]
  have hfilter : List.filter (fun s => decide (s ≠ [])) [a, b] = [a, b] := by
    simp [ha, hb]
  rw [hfilter]
  have hjoin : joinChar '/' [a, b] = a ++ '/' :: b := rfl
  rw [hjoin, if_neg (by simp [ha])]

theorem posixNormalize_eval (p : JStr) (hp : p ≠ [])
    (habs : p.head? = some '/') (htr : p.getLast? ≠ some '/')
    (hcore : joinChar '/' (List.reverse (List.foldl (normStep false) [] (splitChar '/' p))) ≠ []) :
    posixNormalize p
      = '/' :: joinChar '/' (List.reverse (List.foldl (normStep false) [] (splitChar '/' p))) := by
  simp only [posixNormalize, hp, if_false, habs, htr]
  simp [hcore]

theorem splitChar_cons_sep (c : Char) (xs : JStr) :
    splitChar c (c :: xs) = [] :: splitChar c xs := by
  simp [splitChar]

theorem foldl_normStep_root (rsegs segs : List JStr)
    (hr : ∀ s ∈ rsegs, goodSeg s) (hs : ∀ s ∈ segs, goodSeg s) :
    List.foldl (normStep false) [] (splitChar '/' ('/' :: joinChar '/' rsegs) ++ segs)
      = (rsegs ++ segs).reverse := by
  rw [List.foldl_append]
  have hbase : List.foldl (normStep false) [] (splitChar '/' ('/' :: joinChar '/' rsegs))
      = rsegs.reverse := by
    cases rsegs with
    | nil =>
      rw [show joinChar '/' ([] : List JStr) = [] from rfl, splitChar_cons_sep,
        show splitChar '/' ([] : JStr) = [[]] from rfl]
      rfl
    | cons r rest =>
      rw [splitChar_cons_sep,
        splitChar_joinChar '/' (r :: rest) (by simp) (fun s h => (hr s h).2.1),
        List.foldl_cons,
        show normStep false [] [] = [] from rfl,
        foldl_normStep_good false (r :: rest) hr []]
      simp
  rw [hbase, foldl_normStep_good false segs hs rsegs.reverse, List.reverse_append]

theorem getFullPath_eval (rsegs segs : List JStr)
    (hr : ∀ s ∈ rsegs, goodSeg s) (hs : ∀ s ∈ segs, goodSeg s) (hne : segs ≠ []) :
    getFullPath ('/' :: joinChar '/' rsegs) (joinChar '/' segs)
      = '/' :: joinChar '/' (rsegs ++ segs) := by
  have hkne : joinChar '/' segs ≠ [] := joinChar_ne_nil _ _ hne (fun s h => (hs s h).1)
  have hurl : urlToPath (joinChar '/' segs) = joinChar '/' segs :=
    urlToPath_joinChar segs hne (fun s h => ⟨(hs s h).1, (hs s h).2.1⟩)
  rw [getFullPath, hurl, posixJoin_ne_nil_args _ _ (List.cons_ne_nil _ _) hkne]
  have hsplitp : splitChar '/' (('/' :: joinChar '/' rsegs) ++ '/' :: joinChar '/' segs)
      = splitChar '/' ('/' :: joinChar '/' rsegs) ++ segs := by
    rw [splitChar_append_sep, splitChar_joinChar '/' segs hne (fun s h => (hs s h).2.1)]
  have happend_ne : rsegs ++ segs ≠ [] := by
    intro hcontra
    exact hne (List.append_eq_nil.mp hcontra).2
  have hgood : ∀ s ∈ rsegs ++ segs, goodSeg s := by
    intro s h
    rcases List.mem_append.mp h with h' | h'
    · exact hr s h'
    · exact hs s h'
  have hcorene : joinChar '/' (rsegs ++ segs) ≠ [] :=
    joinChar_ne_nil _ _ happend_ne (fun s h => (hgood s h).1)
  have hlastfact : (('/' :: joinChar '/' rsegs) ++ '/' :: joinChar '/' segs).getLast?
      ≠ some '/' := by
    rw [List.getLast?_append_cons,
      show ('/' :: joinChar '/' segs) = ['/'] ++ joinChar '/' segs from rfl,
      List.getLast?_append_of_ne_nil _ hkne]
    exact getLast?_joinChar_ne '/' segs hne (fun s h => ⟨(hs s h).1, (hs s h).2.1⟩)
  have hfoldfact : List.foldl (normStep false) []
      (splitChar '/' (('/' :: joinChar '/' rsegs) ++ '/' :: joinChar '/' segs))
      = (rsegs ++ segs).reverse := by
    rw [hsplitp]
    exact foldl_normStep_root rsegs segs hr hs
  have hcorefact : joinChar '/' (List.reverse (List.foldl (normStep false) []
      (splitChar '/' (('/' :: joinChar '/' rsegs) ++ '/' :: joinChar '/' segs)))) ≠ [] := by
    rw [hfoldfact, List.reverse_reverse]
    exact hcorene
  rw [posixNormalize_eval (('/' :: joinChar '/' rsegs) ++ '/' :: joinChar '/' segs)
      (by simp) rfl hlastfact hcorefact,
    hfoldfact, List.reverse_reverse]

theorem strip_map_joinChar (segs : List JStr)
    (hs : ∀ s ∈ segs, goodSeg s) (hne : segs ≠ []) :
    List.dropWhile (fun ch => ch = '/')
      ((joinChar '/' segs).map (fun ch => if ch = '\\' then '/' else ch))
      = joinChar '/' segs := by
  have hmap : (joinChar '/' segs).map (fun ch => if ch = '\\' then '/' else ch)
      = joinChar '/' segs := by
    apply map_no_backslash
    intro ch hch
    rcases mem_joinChar '/' segs ch hch with h | ⟨s, hsmem, hchs⟩
    · subst h; decide
    · intro hb; exact (hs s hsmem).2.2.1 (hb ▸ hchs)
  rw [hmap]
  cases segs with
  | nil => exact absurd rfl hne
  | cons s rest =>
    have hs1 := hs s (List.mem_cons_self _ _)
    cases s with
    | nil => exact absurd rfl hs1.1
    | cons x s' =>
      rw [joinChar_cons_head, List.dropWhile_cons]
      have hx : ¬ (x = '/') := fun hxc => hs1.2.1 (hxc ▸ List.mem_cons_self x s')
      simp [hx]

theorem pathToUrl_getFullPath_eval (rsegs segs : List JStr)
    (hr : ∀ s ∈ rsegs, goodSeg s) (hs : ∀ s ∈ segs, goodSeg s) (hne : segs ≠ []) :
    pathToUrl ('/' :: joinChar '/' rsegs) ('/' :: joinChar '/' (rsegs ++ segs))
      = joinChar '/' segs := by
  cases rsegs with
  | nil =>
    rw [pathToUrl, if_neg (List.cons_ne_nil _ _)]
    have hsw : jsStartsWith ('/' :: joinChar '/' ([] ++ segs)) ('/' :: joinChar '/' ([] : List JStr))
        = true := by
      rw [show joinChar '/' ([] : List JStr) = [] from rfl]
      simp [jsStartsWith]
    rw [if_pos hsw]
    rw [show joinChar '/' ([] : List JStr) = [] from rfl,
      show List.length ('/' :: ([] : JStr)) = 1 from rfl,
      show ([] : List JStr) ++ segs = segs from rfl,
      List.drop_one, show ('/' :: joinChar '/' segs).tail = joinChar '/' segs from rfl]
    exact strip_map_joinChar segs hs hne
  | cons r rest =>
    have hrne : joinChar '/' (r :: rest) ≠ [] :=
      joinChar_ne_nil _ _ (by simp) (fun s h => (hr s h).1)
    have hkne : joinChar '/' segs ≠ [] :=
      joinChar_ne_nil _ _ hne (fun s h => (hs s h).1)
    have hjoin : joinChar '/' ((r :: rest) ++ segs)
        = joinChar '/' (r :: rest) ++ '/' :: joinChar '/' segs :=
      joinChar_append '/' (r :: rest) segs (by simp) hne
    have hfull : '/' :: joinChar '/' ((r :: rest) ++ segs)
        = ('/' :: joinChar '/' (r :: rest)) ++ '/' :: joinChar '/' segs := by
      rw [hjoin]; rfl
    rw [pathToUrl, if_neg (List.cons_ne_nil _ _), hfull,
      if_pos (jsStartsWith_append ('/' :: joinChar '/' (r :: rest)) ('/' :: joinChar '/' segs)),
      List.drop_left]
    show List.dropWhile (fun ch => decide (ch = '/'))
        (List.map (fun ch => if ch = '\\' then '/' else ch) ('/' :: joinChar '/' segs))
      = joinChar '/' segs
    rw [List.map_cons, show ((if ('/' : Char) = '\\' then '/' else '/') : Char) = '/' from rfl,
      List.dropWhile_cons]
    simp only [decide_True, if_true]
    exact strip_map_joinChar segs hs hne

theorem pathToUrl_canonical_id (rsegs segs : List JStr)
    (hs : ∀ s ∈ segs, goodSeg s) (hne : segs ≠ []) :
    pathToUrl ('/' :: joinChar '/' rsegs) (joinChar '/' segs) = joinChar '/' segs := by
  cases segs with
  | nil => exact absurd rfl hne
  | cons s rest =>
    have hs1 := hs s (List.mem_cons_self _ _)
    cases s with
    | nil => exact absurd rfl hs1.1
    | cons x s' =>
      have hx : x ≠ '/' := fun hxc => hs1.2.1 (hxc ▸ List.mem_cons_self x s')
      rw [pathToUrl, joinChar_cons_head,
        if_neg (List.cons_ne_nil _ _),
        if_neg (by rw [jsStartsWith_cons_ne x '/' _ _ hx]; simp)]
      rw [← joinChar_cons_head]
      exact strip_map_joinChar ((x :: s') :: rest) hs (by simp)

/-! ### Supporting facts on the filesystem and factory models -/

theorem fsLookup_fsWrite (p : JStr) (v : Bytes) (fs : FS) :
    fsLookup p (fsWrite p v fs) = some v := by
  simp [fsWrite, fsLookup]

theorem fsLookup_fsErase (p : JStr) (fs : FS) :
    fsLookup p (fsErase p fs) = none := by
  induction fs with
  | nil => rfl
  | cons e rest ih =>
    by_cases h : e.1 = p
    · simpa [fsErase, fsLookup, h] using ih
    · simpa [fsErase, fsLookup, h] using ih

theorem mapGet_mapSet (k : String) (v : Nat) (m : List (String × Nat)) :
    mapGet k (mapSet k v m) = some v := by
  simp [mapSet, mapGet]

theorem getFullPath_empty_key (root : JStr) (hroot : root ≠ []) :
    getFullPath root [] = posixNormalize root := by
  rw [getFullPath, show urlToPath [] = [] from rfl]
  simp only [posixJoin]
  have hfilter : List.filter (fun s => decide (s ≠ [])) [root, []] = [root] := by
    simp [hroot]
  rw [hfilter, show joinChar '/' [root] = root from rfl, if_neg hroot]

/-! ## The claims -/

/-- C1, as stated, is false: the key `a/./b` is canonical in the claim's
sense (forward-slash separated, no leading slash, no empty segments), yet
with root `/root` the round trip through getFullPath and pathToUrl returns
`a/b`, because Node's `join` normalizes the `.` segment away. -/
theorem c1_claim_counterexample :
    isCanonicalKey "a/./b".toList
    ∧ pathToUrl "/root".toList (getFullPath "/root".toList "a/./b".toList)
        ≠ "a/./b".toList := by
  decide

/-- C1 (amended): for a configured root that is an absolute canonical path
`'/' ++ rsegs.join('/')` and for every key assembled from segments that are
nonempty and contain no `/`, no backslash, and are not `.` or `..`,
converting the key to a rooted OS path and back yields the key again, and
pathToUrl is the identity on such already-canonical keys. -/
theorem c1_key_path_codec_roundtrip (rsegs segs : List JStr)
    (hr : ∀ s ∈ rsegs, goodSeg s) (hs : ∀ s ∈ segs, goodSeg s) (hne : segs ≠ []) :
    pathToUrl ('/' :: joinChar '/' rsegs)
        (getFullPath ('/' :: joinChar '/' rsegs) (joinChar '/' segs))
      = joinChar '/' segs
    ∧ pathToUrl ('/' :: joinChar '/' rsegs) (joinChar '/' segs) = joinChar '/' segs := by
  constructor
  · rw [getFullPath_eval rsegs segs hr hs hne]
    exact pathToUrl_getFullPath_eval rsegs segs hr hs hne
  · exact pathToUrl_canonical_id rsegs segs hs hne

/-- Witness for C1 (amended) at root `/root` and key `a/b.txt`. -/
theorem c1_key_path_codec_roundtrip_witness :
    pathToUrl ('/' :: joinChar '/' ["root".toList])
        (getFullPath ('/' :: joinChar '/' ["root".toList])
          (joinChar '/' ["a".toList, "b.txt".toList]))
      = joinChar '/' ["a".toList, "b.txt".toList]
    ∧ pathToUrl ('/' :: joinChar '/' ["root".toList])
        (joinChar '/' ["a".toList, "b.txt".toList])
      = joinChar '/' ["a".toList, "b.txt".toList] :=
  c1_key_path_codec_roundtrip ["root".toList] ["a".toList, "b.txt".toList]
    (by decide) (by decide) (by decide)

/-- C2, as stated, is false: two createStorage calls with the identical
selector `local` and the identical serialized configuration return distinct
instances (identifiers 0 and 1), because the cache-hit lookup is commented
out in the source; the instance is nonetheless stored in the cache map. -/
theorem c2_claim_counterexample :
    createStorage ⟨[], 0⟩ "local" "cfg" true true = .ok (⟨[("local-cfg", 0)], 1⟩, 0)
    ∧ createStorage ⟨[("local-cfg", 0)], 1⟩ "local" "cfg" true true
        = .ok (⟨[("local-cfg", 1)], 2⟩, 1)
    ∧ (0 : Nat) ≠ 1 := by
  refine ⟨rfl, rfl, by decide⟩

/-- C2 (amended): createStorage always constructs a fresh adapter instance —
two calls with identical selector and identical serialized configuration
return distinct instances — while still storing each instance in the cache
map under `selector + "-" + serializedConfig`; clearCache empties the map. -/
theorem c2_factory_always_constructs (st : FactoryState) (optionsJson : String)
    (aOk sOk : Bool) :
    ∃ st1 i1 st2 i2,
      createStorage st "local" optionsJson aOk sOk = .ok (st1, i1)
      ∧ createStorage st1 "local" optionsJson aOk sOk = .ok (st2, i2)
      ∧ i1 ≠ i2
      ∧ mapGet ("local" ++ "-" ++ optionsJson) st2.cache = some i2
      ∧ (clearCache st2).cache = [] := by
  refine ⟨_, _, _, _, rfl, rfl, ?_, ?_, rfl⟩
  · simp
  · exact mapGet_mapSet _ _ _

/-- C3, as stated, is false: the filesystem adapter's getFile performs no
empty-key validation at all — with the empty key it addresses the backend at
the root path itself (here reading the entry stored at `/root`) instead of
failing fast with an InvalidKey error. -/
theorem c3_claim_counterexample :
    localGetFile "/root".toList [("/root".toList, [9])] [] = .ok [9] := rfl

/-- C3 (amended): only the object-storage adapter's getFile and deleteFile
fail fast on an empty key (with key-required errors); its putFile instead
substitutes a random token and proceeds; the filesystem adapter performs no
empty-key check — its getFile addresses the normalized root path itself —
and the blob adapter performs no empty-key check either: its getFile
addresses the blob client for the empty key and passes the backend outcome
through, its deleteFile addresses the blob client for the empty key
unconditionally, and its putFile uploads under the empty key; the
display/decode paths (pathToUrl, urlToPath, path, getUrl) all map the empty
key to the empty string. -/
theorem c3_empty_key_validation (backendB : Except String Bytes)
    (backendU : Except String Unit) (bucket randKey account container : JStr)
    (cloudFrontUrl : Option JStr) (content : Bytes) (hcl : Option Nat)
    (root baseUrl : JStr) (hroot : root ≠ []) :
    s3GetFile [] backendB = .error "Key is required to fetch the file from S3."
    ∧ s3DeleteFile [] backendU = .error "File key is required for deletion."
    ∧ (s3PutFile bucket cloudFrontUrl content [] randKey hcl).1
        = [S3Cmd.putObject randKey content, S3Cmd.headObject randKey]
    ∧ getFullPath root [] = posixNormalize root
    ∧ azureGetFile [] backendB = ([AzureCmd.download []], backendB)
    ∧ azureDeleteFileCmds [] = [AzureCmd.deleteBlob []]
    ∧ (azurePutFile account container content [] {}).1
        = [AzureCmd.uploadData [] content]
    ∧ (azurePutFile account container content [] {}).2.key = []
    ∧ pathToUrl root [] = []
    ∧ urlToPath [] = []
    ∧ localPath root [] = []
    ∧ localGetUrl baseUrl [] = [] := by
  refine ⟨rfl, rfl, rfl, getFullPath_empty_key root hroot, rfl, rfl, rfl, rfl,
    rfl, rfl, rfl, rfl⟩

/-- Witness for C3 (amended) at root `/r`. -/
theorem c3_empty_key_validation_witness :
    s3GetFile [] (.ok [1]) = .error "Key is required to fetch the file from S3."
    ∧ s3DeleteFile [] (.ok ()) = .error "File key is required for deletion."
    ∧ (s3PutFile "b".toList none [1] [] "rnd".toList none).1
        = [S3Cmd.putObject "rnd".toList [1], S3Cmd.headObject "rnd".toList]
    ∧ getFullPath "/r".toList [] = posixNormalize "/r".toList
    ∧ azureGetFile [] (.ok [1]) = ([AzureCmd.download []], .ok [1])
    ∧ azureDeleteFileCmds [] = [AzureCmd.deleteBlob []]
    ∧ (azurePutFile "acct".toList "cont".toList [1] [] {}).1
        = [AzureCmd.uploadData [] [1]]
    ∧ (azurePutFile "acct".toList "cont".toList [1] [] {}).2.key = []
    ∧ pathToUrl "/r".toList [] = []
    ∧ urlToPath [] = []
    ∧ localPath "/r".toList [] = []
    ∧ localGetUrl "b".toList [] = [] :=
  c3_empty_key_validation (.ok [1]) (.ok ()) "b".toList "rnd".toList
    "acct".toList "cont".toList none [1] none "/r".toList "b".toList (by decide)

/-- C4, as stated, is false: the blob-storage adapter's putFile issues only
the upload command — no post-write metadata fetch — and reports the
caller-supplied buffer's length (here 2) as the record's size. -/
theorem c4_claim_counterexample :
    (azurePutFile "acct".toList "cont".toList [1, 2] "a/b.txt".toList {}).1
      = [AzureCmd.uploadData "a/b.txt".toList [1, 2]]
    ∧ (azurePutFile "acct".toList "cont".toList [1, 2] "a/b.txt".toList {}).2.size = 2 := by
  refine ⟨rfl, rfl⟩

/-- C4 (amended): the object-storage adapter always performs the post-write
HeadObject round trip and reports its ContentLength (defaulting to 0) as the
size, and the filesystem adapter reports the stat of the just-written file
(the written buffer's length); the blob-storage adapter, however, issues no
metadata fetch and takes the size directly from the caller-supplied
buffer. -/
theorem c4_size_provenance (bucket randKey account container : JStr)
    (cloudFrontUrl : Option JStr) (content : Bytes) (key : JStr) (hcl : Option Nat)
    (root baseUrl : JStr) (fs : FS) :
    ((s3PutFile bucket cloudFrontUrl content key randKey hcl).1
        = [S3Cmd.putObject (if key = [] then randKey else key) content,
           S3Cmd.headObject (if key = [] then randKey else key)]
      ∧ (s3PutFile bucket cloudFrontUrl content key randKey hcl).2.size = hcl.getD 0)
    ∧ ((azurePutFile account container content key {}).1
        = [AzureCmd.uploadData key content]
      ∧ (azurePutFile account container content key {}).2.size = content.length)
    ∧ (localPutFile root baseUrl fs content key {}).2.size = content.length := by
  refine ⟨⟨rfl, rfl⟩, ⟨rfl, rfl⟩, ?_⟩
  simp only [localPutFile, spreadOptions, fsLookup_fsWrite, Option.getD_some, Option.getD_none]

/-- C5, as stated, is false: the key `httpfoo.txt` begins with no URL scheme
(it contains no colon), so by the claim getUrl must concatenate it onto the
base URL; the code instead returns it unmodified because it only tests for
the literal character prefix `http`. -/
theorem c5_claim_counterexample :
    localGetUrl "http://h/up".toList "httpfoo.txt".toList = "httpfoo.txt".toList
    ∧ localGetUrl "http://h/up".toList "httpfoo.txt".toList
        ≠ "http://h/up/httpfoo.txt".toList := by
  refine ⟨rfl, by decide⟩

/-- C5 (amended): with base URL `http://h/up/` (trailing slash) and key
`/a/b.txt` (leading slash) getUrl returns exactly `http://h/up/a/b.txt`;
every nonempty key beginning with the literal characters `http` is returned
unmodified; every other nonempty key is concatenated as base URL (one
trailing slash stripped) + `/` + key (one leading slash stripped). -/
theorem c5_get_url_construction :
    localGetUrl "http://h/up/".toList "/a/b.txt".toList = "http://h/up/a/b.txt".toList
    ∧ (∀ baseUrl urlKey, urlKey ≠ [] →
        jsStartsWith urlKey ('h' :: 't' :: 't' :: 'p' :: []) = true →
        localGetUrl baseUrl urlKey = urlKey)
    ∧ (∀ baseUrl urlKey, urlKey ≠ [] →
        jsStartsWith urlKey ('h' :: 't' :: 't' :: 'p' :: []) = false →
        localGetUrl baseUrl urlKey
          = stripOneTrailing '/' baseUrl ++ '/' :: stripOneLeading '/' urlKey) := by
  refine ⟨by decide, ?_, ?_⟩
  · intro b k hk hh
    simp [localGetUrl, hk, hh]
  · intro b k hk hh
    simp [localGetUrl, hk, hh]

/-- Witness for C5 (amended): pass-through of a key starting with `http` and
concatenation of an ordinary key. -/
theorem c5_get_url_construction_witness :
    localGetUrl "b".toList "httpx".toList = "httpx".toList
    ∧ localGetUrl "u/".toList "k.txt".toList
        = stripOneTrailing '/' "u/".toList ++ '/' :: stripOneLeading '/' "k.txt".toList :=
  ⟨c5_get_url_construction.2.1 "b".toList "httpx".toList (by decide) (by decide),
   c5_get_url_construction.2.2 "u/".toList "k.txt".toList (by decide) (by decide)⟩

/-- C6: for every filesystem state, buffer and key, putFile followed by
getFile on the same key returns exactly the written bytes; deleteFile on
that key then succeeds, and a subsequent getFile fails with ENOENT (the
NotFound condition). -/
theorem c6_put_get_delete_lifecycle (root baseUrl : JStr) (fs : FS) (buf : Bytes)
    (key : JStr) :
    localGetFile root (localPutFile root baseUrl fs buf key {}).1 key = .ok buf
    ∧ localDeleteFile root (localPutFile root baseUrl fs buf key {}).1 key
        = .ok (fsErase (getFullPath root key) (localPutFile root baseUrl fs buf key {}).1)
    ∧ localGetFile root
        (fsErase (getFullPath root key) (localPutFile root baseUrl fs buf key {}).1) key
        = .error FsError.ENOENT := by
  refine ⟨?_, ?_, ?_⟩
  · simp [localGetFile, localPutFile, fsLookup_fsWrite]
  · simp [localDeleteFile, localPutFile, fsLookup_fsWrite]
  · simp [localGetFile, localPutFile, fsLookup_fsErase]

/-- C7: the blob-storage adapter's deleteFile swallows every backend error
and resolves normally, while the object-storage adapter passes the backend's
delete failure through unchanged (for any nonempty key) and the filesystem
adapter propagates the unlink failure (ENOENT when the path is absent). -/
theorem c7_delete_error_policy (e : String) (key : JStr) (hk : key ≠ [])
    (root : JStr) (fs : FS) (hmiss : fsLookup (getFullPath root key) fs = none) :
    azureDeleteFile (.error e) = .ok ()
    ∧ s3DeleteFile key (.error e) = .error e
    ∧ localDeleteFile root fs key = .error FsError.ENOENT := by
  refine ⟨rfl, by simp [s3DeleteFile, hk], by simp [localDeleteFile, hmiss]⟩

/-- Witness for C7 at key `k`, root `/r`, empty filesystem. -/
theorem c7_delete_error_policy_witness :
    azureDeleteFile (.error "boom") = .ok ()
    ∧ s3DeleteFile "k".toList (.error "boom") = .error "boom"
    ∧ localDeleteFile "/r".toList [] "k".toList = .error FsError.ENOENT :=
  c7_delete_error_policy "boom" "k".toList (by decide) "/r".toList [] rfl

/-- C8: in every adapter's upload path, a rejection of the fileDist or
fileName override function reaches the caller as the very same error with
the filesystem unchanged and no backend command issued — the overrides are
fully resolved before any backend write begins. -/
theorem c8_override_abort (e : String) (root baseUrl : JStr) (fs : FS) (buf : Bytes)
    (nameRes : Except String JStr) (d : JStr) (bucket account container randKey : JStr)
    (cloudFrontUrl : Option JStr) (hcl : Option Nat) :
    (localHandleFile root baseUrl fs (.error e) nameRes buf = (fs, .error e)
      ∧ localHandleFile root baseUrl fs (.ok d) (.error e) buf = (fs, .error e))
    ∧ (azureHandleFile account container (.error e) nameRes buf = ([], .error e)
      ∧ azureHandleFile account container (.ok d) (.error e) buf = ([], .error e))
    ∧ (s3HandleFile bucket cloudFrontUrl (.error e) nameRes buf randKey hcl = ([], .error e)
      ∧ s3HandleFile bucket cloudFrontUrl (.ok d) (.error e) buf randKey hcl
          = ([], .error e)) := by
  refine ⟨⟨rfl, rfl⟩, ⟨rfl, rfl⟩, ⟨rfl, rfl⟩⟩

/-- C9: selecting the blob-storage or object-storage backend when its client
library fails to load yields the dedicated error message naming the required
packages (`@azure/storage-blob`, resp. `@aws-sdk/client-s3` and
`@aws-sdk/s3-request-presigner`); the filesystem backend succeeds regardless
of either SDK's availability; any unknown selector fails with the
unsupported-storage-type error. -/
theorem c9_missing_dependency_errors (st : FactoryState) (optionsJson : String)
    (b1 b2 : Bool) (other : String)
    (h1 : other ≠ "local") (h2 : other ≠ "azure") (h3 : other ≠ "s3") :
    createStorage st "azure" optionsJson false b1 = .error azureMissingMsg
    ∧ createStorage st "s3" optionsJson b2 false = .error s3MissingMsg
    ∧ createStorage st "local" optionsJson false false
        = .ok ({ cache := mapSet ("local" ++ "-" ++ optionsJson) st.nextId st.cache,
                 nextId := st.nextId + 1 }, st.nextId)
    ∧ createStorage st other optionsJson b1 b2
        = .error ("Unsupported storage type: " ++ other)
    ∧ "@azure/storage-blob".toList <:+: azureMissingMsg.toList
    ∧ "@aws-sdk/client-s3".toList <:+: s3MissingMsg.toList
    ∧ "@aws-sdk/s3-request-presigner".toList <:+: s3MissingMsg.toList := by
  refine ⟨rfl, rfl, rfl, ?_, by decide, by decide, by decide⟩
  simp [createStorage, h1, h2, h3]

/-- Witness for C9 with the unknown selector `gcs`. -/
theorem c9_missing_dependency_errors_witness :
    createStorage ⟨[], 0⟩ "azure" "c" false false = .error azureMissingMsg
    ∧ createStorage ⟨[], 0⟩ "s3" "c" false false = .error s3MissingMsg
    ∧ createStorage ⟨[], 0⟩ "local" "c" false false
        = .ok ({ cache := mapSet ("local" ++ "-" ++ "c") 0 [], nextId := 1 }, 0)
    ∧ createStorage ⟨[], 0⟩ "gcs" "c" false false
        = .error ("Unsupported storage type: " ++ "gcs")
    ∧ "@azure/storage-blob".toList <:+: azureMissingMsg.toList
    ∧ "@aws-sdk/client-s3".toList <:+: s3MissingMsg.toList
    ∧ "@aws-sdk/s3-request-presigner".toList <:+: s3MissingMsg.toList :=
  c9_missing_dependency_errors ⟨[], 0⟩ "c" false false "gcs"
    (by decide) (by decide) (by decide)

/-- C10: every field supplied in putFile's options object is spread into the
returned record after the computed fields and therefore silently overwrites
the backend-computed metadata: the returned size, key and url are exactly
the caller-supplied ones, and concretely a caller-supplied size of 999
replaces the stat-reported size 2 of a two-byte write. -/
theorem c10_options_spread_overrides (root baseUrl : JStr) (fs : FS) (buf : Bytes)
    (key : JStr) (n : Nat) (k2 u2 : JStr) :
    ((localPutFile root baseUrl fs buf key
        { size := some n, key := some k2, url := some u2 }).2).size = n
    ∧ ((localPutFile root baseUrl fs buf key
        { size := some n, key := some k2, url := some u2 }).2).key = k2
    ∧ ((localPutFile root baseUrl fs buf key
        { size := some n, key := some k2, url := some u2 }).2).url = u2
    ∧ (localPutFile "/r".toList "b".toList [] [1, 2] "k".toList
        { size := some 999 }).2.size = 999
    ∧ ((fsLookup (getFullPath "/r".toList "k".toList)
          (localPutFile "/r".toList "b".toList [] [1, 2] "k".toList
            { size := some 999 }).1).getD []).length = 2 := by
  refine ⟨rfl, rfl, rfl, rfl, rfl⟩

end FileStorage
